import Mathlib

/-!
Verification of the reconciliation engine of the external-dns deSEC provider
(`internal/provider/desec.go`), shallowly embedded in Lean 4.

Go strings are modelled as `List Char`; Go `int`/`int64` as `Int`; a Go `nil`
pointer as `Option.none`; the bulk HTTP calls of the provider as an error oracle
`Phase → Str → Option E` together with an explicit trace of the bulk calls
that were issued.
-/

/-- A Go string, modelled as its list of characters. -/
abbrev Str : Type := List Char

/-- Coerce a Lean string literal to the model type. -/
def strOf (s : String) : Str := s.data

/-- The Go string literal `"."`. -/
def dotStr : Str := ['.']

/-- Go `strings.HasSuffix s suffix`. -/
def hasSuffix (s suffix : Str) : Bool := suffix.isSuffixOf s

/-- Go `strings.TrimSuffix s suffix`: removes one trailing occurrence of
`suffix` from `s` when present, otherwise returns `s` unchanged. -/
def trimSuffix (s suffix : Str) : Str :=
  if hasSuffix s suffix then s.take (s.length - suffix.length) else s

theorem hasSuffix_append (a b : Str) : hasSuffix (a ++ b) b = true := by
  simp [hasSuffix, List.isSuffixOf_iff_suffix]

theorem hasSuffix_exists {s suffix : Str} (h : hasSuffix s suffix = true) :
    ∃ t, s = t ++ suffix := by
  obtain ⟨t, ht⟩ := (List.isSuffixOf_iff_suffix).mp h
  exact ⟨t, ht.symm⟩

theorem trimSuffix_append (a b : Str) : trimSuffix (a ++ b) b = a := by
  rw [trimSuffix, if_pos (hasSuffix_append a b), List.length_append,
    Nat.add_sub_cancel]
  exact List.take_left a b

theorem trimSuffix_of_not {s suffix : Str} (h : hasSuffix s suffix = false) :
    trimSuffix s suffix = s := by
  simp [trimSuffix, h]

theorem hasSuffix_single_append {z : Str} (a : Str) (c : Char) (hz : z ≠ []) :
    hasSuffix (a ++ z) [c] = hasSuffix z [c] := by
  have fwd : hasSuffix (a ++ z) [c] = true → hasSuffix z [c] = true := by
    intro h2
    obtain ⟨t, ht⟩ := hasSuffix_exists h2
    have hlast : z = z.dropLast ++ [z.getLast hz] := (List.dropLast_append_getLast hz).symm
    have heq : (a ++ z.dropLast) ++ [z.getLast hz] = t ++ [c] := by
      rw [List.append_assoc, ← hlast, ht]
    have hc : z.getLast hz = c := by
      have h4 := (List.append_inj' heq rfl).2
      simpa using h4
    rw [hlast, hc]
    exact hasSuffix_append _ _
  have bwd : hasSuffix z [c] = true → hasSuffix (a ++ z) [c] = true := by
    intro h2
    obtain ⟨t, ht⟩ := hasSuffix_exists h2
    subst ht
    rw [← List.append_assoc]
    exact hasSuffix_append (a ++ t) [c]
  cases h2 : hasSuffix z [c] with
  | true => exact bwd h2
  | false =>
    cases h1 : hasSuffix (a ++ z) [c] with
    | true => exact absurd (fwd h1) (by simp [h2])
    | false => rfl

theorem append_ne_of_longer (s x : Str) (d : Str) (hs : s ≠ []) (hd : d ≠ []) :
    s ++ d ++ x ≠ x := by
  intro h
  have := congrArg List.length h
  simp [List.length_append] at this
  rcases s with _ | ⟨c, s⟩
  · exact hs rfl
  · rcases d with _ | ⟨c', d⟩
    · exact hd rfl
    · simp at this
      omega

/-- Minimum TTL accepted by deSEC, from `internal/provider/desec.go`. -/
def minimumTTL : Int := 3600

/-- Checks whether one (already trailing-dot-trimmed) filter matches a
(trimmed) name, as in the loop body of `findMatchingDomain`:
the name equals the filter or ends with `"." ++ filter`. -/
def filterMatches (dnsName filt : Str) : Bool :=
  decide (dnsName = filt) || hasSuffix dnsName (dotStr ++ filt)

/-- The loop of `findMatchingDomain`: scans the filters left to right,
keeping the trimmed filter of greatest length among those that match. -/
def findLoop (dnsName : Str) (domainFilters : List Str) (longestMatch : Str) : Str :=
  match domainFilters with
  | [] => longestMatch
  | filt :: rest =>
    let filt' := trimSuffix filt dotStr
    if filterMatches dnsName filt' && decide (longestMatch.length < filt'.length) then
      findLoop dnsName rest filt'
    else
      findLoop dnsName rest longestMatch

/-- Go `findMatchingDomain`: trims a trailing dot from the name, then returns
the longest matching (trimmed) filter, or the empty string when none match. -/
def findMatchingDomain (dnsName : Str) (domainFilters : List Str) : Str :=
  findLoop (trimSuffix dnsName dotStr) domainFilters []

example : findMatchingDomain (strOf "foo.sub.example.com")
    [strOf "sub.example.com", strOf "example.com"] = strOf "sub.example.com" := by decide

example : findMatchingDomain (strOf "bar.example.com")
    [strOf "sub.example.com", strOf "example.com"] = strOf "example.com" := by decide

example : findMatchingDomain (strOf "baz.other.org")
    [strOf "sub.example.com", strOf "example.com"] = strOf "" := by decide

theorem findLoop_mono (d : Str) : ∀ (fs : List Str) (longest : Str),
    longest.length ≤ (findLoop d fs longest).length := by
  intro fs
  induction fs with
  | nil => intro longest; exact le_refl _
  | cons f rest ih =>
    intro longest
    simp only [findLoop]
    split
    · rename_i h
      have hlen : longest.length < (trimSuffix f dotStr).length := by
        have h2 := (Bool.and_eq_true _ _).mp h
        exact of_decide_eq_true h2.2
      exact le_trans (le_of_lt hlen) (ih _)
    · exact ih longest

theorem findLoop_ub (d : Str) : ∀ (fs : List Str) (longest : Str) (f : Str),
    f ∈ fs → filterMatches d (trimSuffix f dotStr) = true →
    (trimSuffix f dotStr).length ≤ (findLoop d fs longest).length := by
  intro fs
  induction fs with
  | nil => intro longest f hf _; exact absurd hf (List.not_mem_nil f)
  | cons g rest ih =>
    intro longest f hf hm
    simp only [findLoop]
    rcases List.mem_cons.mp hf with hfg | hfr
    · subst hfg
      split
      · exact findLoop_mono d rest _
      · rename_i h
        have hnlt : ¬ longest.length < (trimSuffix f dotStr).length := by
          intro hlt
          exact h (by simp [hm, hlt])
        exact le_trans (Nat.le_of_not_lt hnlt) (findLoop_mono d rest longest)
    · split
      · exact ih _ f hfr hm
      · exact ih _ f hfr hm

theorem findLoop_mem (d : Str) : ∀ (fs : List Str) (longest : Str),
    findLoop d fs longest = longest ∨
    ∃ f ∈ fs, trimSuffix f dotStr = findLoop d fs longest ∧
      filterMatches d (trimSuffix f dotStr) = true := by
  intro fs
  induction fs with
  | nil => intro longest; exact Or.inl rfl
  | cons g rest ih =>
    intro longest
    simp only [findLoop]
    split
    · rename_i h
      have hm : filterMatches d (trimSuffix g dotStr) = true := ((Bool.and_eq_true _ _).mp h).1
      rcases ih (trimSuffix g dotStr) with heq | ⟨f, hf, hfe, hfm⟩
      · exact Or.inr ⟨g, List.mem_cons_self g rest, heq.symm, hm⟩
      · exact Or.inr ⟨f, List.mem_cons_of_mem g hf, hfe, hfm⟩
    · rcases ih longest with heq | ⟨f, hf, hfe, hfm⟩
      · exact Or.inl heq
      · exact Or.inr ⟨f, List.mem_cons_of_mem g hf, hfe, hfm⟩

/-- External-dns endpoint (`endpoint.Endpoint`): fully-qualified name, record
type, set identifier, TTL, opaque labels and provider-specific attributes,
and the ordered target values. -/
structure Endpoint where
  DNSName : Str
  RecordType : Str
  SetIdentifier : Str
  RecordTTL : Int
  Labels : List (Str × Str)
  ProviderSpecific : List (Str × Str)
  Targets : List Str
  deriving DecidableEq

/-- deSEC RRSet (`desec.RRSet`): subname (empty means apex), record type,
ordered record values, TTL. -/
structure RRSet where
  SubName : Str
  Type_ : Str
  Records : List Str
  TTL : Int
  deriving DecidableEq

/-- TTL defaulting as written identically in `convertEndpointToRRSet` and
`AdjustEndpoints`: when the endpoint TTL is 0 or below `minimumTTL` the
configured default replaces it, otherwise it passes through. -/
def normalizeTTLGo (ttl defaultTTL : Int) : Int :=
  if ttl = 0 ∨ ttl < minimumTTL then defaultTTL else ttl

/-- CNAME target canonicalization as written identically in
`convertEndpointToRRSet` and `AdjustEndpoints`: for record type `"CNAME"`,
append a trailing dot when the target lacks one; other types pass through. -/
def normTargetGo (recordType target : Str) : Str :=
  if recordType = strOf "CNAME" ∧ hasSuffix target dotStr = false then
    target ++ dotStr
  else
    target

/-- Go `extractSubname`: trims trailing dots from both name and domain,
returns the empty subname at the apex, otherwise the name with the
`"." ++ domain` suffix removed. -/
def extractSubname (dnsName domain : Str) : Str :=
  let dnsName' := trimSuffix dnsName dotStr
  let domain' := trimSuffix domain dotStr
  if dnsName' = domain' then []
  else trimSuffix dnsName' (dotStr ++ domain')

/-- Go `convertEndpointToRRSet` on a non-nil endpoint. -/
def convertEndpointToRRSetCore (ep : Endpoint) (domain : Str) (defaultTTL : Int) : RRSet :=
  { SubName := extractSubname ep.DNSName domain
    Type_ := ep.RecordType
    Records := ep.Targets.map (normTargetGo ep.RecordType)
    TTL := normalizeTTLGo ep.RecordTTL defaultTTL }

/-- Go `convertEndpointToRRSet`: nil in, nil out. -/
def convertEndpointToRRSet (ep : Option Endpoint) (domain : Str) (defaultTTL : Int) :
    Option RRSet :=
  match ep with
  | none => none
  | some ep => some (convertEndpointToRRSetCore ep domain defaultTTL)

/-- Name composition of `convertRRSetToEndpoint`: apex keeps the zone name,
otherwise `subname ++ "." ++ zone`; a single trailing dot is then ensured by
trimming one and appending one. -/
def composeDNSName (subName domain : Str) : Str :=
  let dnsName := if subName = [] then domain else subName ++ dotStr ++ domain
  trimSuffix dnsName dotStr ++ dotStr

/-- Go `convertRRSetToEndpoint` on a non-nil RRSet; the fields Go leaves at
their zero value are the empty string / empty list here. -/
def convertRRSetToEndpointCore (rrset : RRSet) (domain : Str) : Endpoint :=
  { DNSName := composeDNSName rrset.SubName domain
    RecordType := rrset.Type_
    SetIdentifier := []
    RecordTTL := rrset.TTL
    Labels := []
    ProviderSpecific := []
    Targets := rrset.Records }

/-- Go `convertRRSetToEndpoint`: nil in, nil out. -/
def convertRRSetToEndpoint (rrset : Option RRSet) (domain : Str) : Option Endpoint :=
  match rrset with
  | none => none
  | some r => some (convertRRSetToEndpointCore r domain)

example : extractSubname (strOf "foo.sub.example.com") (strOf "sub.example.com") =
    strOf "foo" := by decide

example : extractSubname (strOf "example.com") (strOf "example.com") = strOf "" := by decide

example : composeDNSName (strOf "www") (strOf "example.com") =
    strOf "www.example.com." := by decide

example : composeDNSName (strOf "") (strOf "example.com") =
    strOf "example.com." := by decide

theorem hasSuffix_dot_append {z : Str} (a : Str) (hz : z ≠ []) :
    hasSuffix (a ++ z) dotStr = hasSuffix z dotStr :=
  hasSuffix_single_append a '.' hz

/-- C1: `findMatchingDomain` trims a trailing dot from the candidate name and
from each filter; it returns a (trimmed) filter from the list that the name
equals or ends with `"." ++ filter`, such that no other matching filter has
greater character length; when no filter matches it returns the empty
string. -/
theorem c1_findMatchingDomain_longest_match (n : Str) (Z : List Str) :
    (findMatchingDomain n Z = [] ∧
      ∀ f ∈ Z, filterMatches (trimSuffix n dotStr) (trimSuffix f dotStr) = false) ∨
    (∃ f ∈ Z, trimSuffix f dotStr = findMatchingDomain n Z ∧
      filterMatches (trimSuffix n dotStr) (findMatchingDomain n Z) = true ∧
      ∀ g ∈ Z, filterMatches (trimSuffix n dotStr) (trimSuffix g dotStr) = true →
        (trimSuffix g dotStr).length ≤ (findMatchingDomain n Z).length) := by
  simp only [findMatchingDomain]
  set d := trimSuffix n dotStr with hd
  by_cases hex : ∃ f ∈ Z, filterMatches d (trimSuffix f dotStr) = true
  · right
    obtain ⟨f₀, hf₀, hm₀⟩ := hex
    rcases findLoop_mem d Z [] with heq | ⟨f, hf, hfe, hfm⟩
    · have hub := findLoop_ub d Z [] f₀ hf₀ hm₀
      rw [heq] at hub
      have h0 : trimSuffix f₀ dotStr = [] := List.length_eq_zero.mp (Nat.le_zero.mp hub)
      refine ⟨f₀, hf₀, ?_, ?_, ?_⟩
      · rw [h0, heq]
      · rw [heq, ← h0]
        exact hm₀
      · intro g hg hgm
        exact findLoop_ub d Z [] g hg hgm
    · refine ⟨f, hf, hfe, ?_, ?_⟩
      · rw [← hfe]
        exact hfm
      · intro g hg hgm
        exact findLoop_ub d Z [] g hg hgm
  · left
    constructor
    · rcases findLoop_mem d Z [] with heq | ⟨f, hf, _, hfm⟩
      · exact heq
      · exact absurd ⟨f, hf, hfm⟩ hex
    · intro f hf
      cases h : filterMatches d (trimSuffix f dotStr) with
      | false => rfl
      | true => exact absurd ⟨f, hf, h⟩ hex

/-- Process configuration (`config.Config`), restricted to the fields the
provider engine reads. -/
structure Config where
  APIToken : Str
  DryRun : Bool
  DomainFilters : List Str
  DefaultTTL : Int
  deriving DecidableEq

/-- The provider engine state (`provider.DesecClient`), without the HTTP
client handle and context, which the embedding replaces by an error oracle
passed to `ApplyChanges`. -/
structure DesecClient where
  dryRun : Bool
  defaultTTL : Int
  domainFilters : List Str
  deriving DecidableEq

/-- Go `CreateDesecClient`: clamps a configured default TTL below
`minimumTTL` up to `minimumTTL`, then stores the configuration. -/
def CreateDesecClient (config : Config) : DesecClient :=
  let ttl := if config.DefaultTTL < minimumTTL then minimumTTL else config.DefaultTTL
  { dryRun := config.DryRun, defaultTTL := ttl, domainFilters := config.DomainFilters }

/-- Body of the `AdjustEndpoints` loop for one non-nil endpoint: drop it when
no domain filter matches, otherwise emit a fresh copy with normalized TTL and
targets. -/
def adjustOne (d : DesecClient) (ep : Endpoint) : Option Endpoint :=
  let matchedDomain := findMatchingDomain ep.DNSName d.domainFilters
  if matchedDomain = [] then none
  else some
    { DNSName := ep.DNSName
      RecordType := ep.RecordType
      SetIdentifier := ep.SetIdentifier
      RecordTTL := normalizeTTLGo ep.RecordTTL d.defaultTTL
      Labels := ep.Labels
      ProviderSpecific := ep.ProviderSpecific
      Targets := ep.Targets.map (normTargetGo ep.RecordType) }

/-- Go `AdjustEndpoints`: a nil slice (`Option.none`) yields an empty list;
otherwise nil entries are skipped, unmatched endpoints dropped, and the rest
normalized in order. Both Go return statements carry a nil error, modelled by
the always-`none` second component (`E` is the opaque Go error type). -/
def AdjustEndpoints (E : Type) (d : DesecClient)
    (endpoints : Option (List (Option Endpoint))) : List Endpoint × Option E :=
  match endpoints with
  | none => ([], none)
  | some eps => (eps.filterMap (fun oep => oep.bind (adjustOne d)), none)

/-- The three phases of `ApplyChanges`, in source order. -/
inductive Phase
  | create
  | update
  | delete
  deriving DecidableEq

/-- One bulk call issued to the provider: which bulk operation, for which
zone, with which RRSet batch. -/
structure BulkCall where
  phase : Phase
  domain : Str
  rrsets : List RRSet
  deriving DecidableEq

/-- The per-zone batch built inside each `ApplyChanges` phase loop. -/
def zoneRRSets (domain : Str) (defaultTTL : Int) (eps : List Endpoint) : List RRSet :=
  eps.map (fun ep => convertEndpointToRRSetCore ep domain defaultTTL)

/-- Append an endpoint to the group of its zone, creating the group at the
end when the zone is new (Go `result[matchedDomain] = append(...)`). -/
def insertGroup (result : List (Str × List Endpoint)) (k : Str) (ep : Endpoint) :
    List (Str × List Endpoint) :=
  match result with
  | [] => [(k, [ep])]
  | (k', eps) :: rest =>
    if k' = k then (k', eps ++ [ep]) :: rest else (k', eps) :: insertGroup rest k ep

/-- Read the group of a zone from the association list (Go map indexing). -/
def lookupGroup (k : Str) (result : List (Str × List Endpoint)) : List Endpoint :=
  match result with
  | [] => []
  | (k', eps) :: rest => if k' = k then eps else lookupGroup k rest

/-- Body of the `mapEndpointsByHostname` loop: skip nil endpoints and empty
names, warn (second component) on unmatched names, group the rest. -/
def mapStep (domainFilters : List Str) (acc : List (Str × List Endpoint) × List Str)
    (oep : Option Endpoint) : List (Str × List Endpoint) × List Str :=
  match oep with
  | none => acc
  | some ep =>
    if ep.DNSName = [] then acc
    else
      let dnsName := trimSuffix ep.DNSName dotStr
      let matchedDomain := findMatchingDomain dnsName domainFilters
      if matchedDomain = [] then (acc.1, acc.2 ++ [ep.DNSName])
      else (insertGroup acc.1 matchedDomain ep, acc.2)

/-- Go `mapEndpointsByHostname`. The Go map from zone to endpoint list is
modelled as an association list keyed in first-insertion order (iteration
order of the Go map is unspecified; the per-key endpoint lists are exact). The
second component records the names for which the unmatched-zone warning was
logged. -/
def mapEndpointsByHostname (domainFilters : List Str)
    (endpoints : List (Option Endpoint)) : List (Str × List Endpoint) × List Str :=
  endpoints.foldl (mapStep domainFilters) ([], [])

/-- The change set (`plan.Changes`), with possibly-nil endpoint pointers. -/
structure Changes where
  Create : List (Option Endpoint)
  UpdateNew : List (Option Endpoint)
  Delete : List (Option Endpoint)
  deriving DecidableEq

/-- One phase loop of `ApplyChanges` over the grouped zones: build each
batch of each zone, skip the provider call in dry-run mode, otherwise issue
the bulk call and return the provider error immediately when it fails. The
provider is the oracle `errf`; the issued calls are traced. -/
def runPhase {E : Type} (dryRun : Bool) (ph : Phase) (defaultTTL : Int)
    (errf : Phase → Str → Option E) (groups : List (Str × List Endpoint)) :
    List BulkCall × Option E :=
  match groups with
  | [] => ([], none)
  | (domain, eps) :: rest =>
    let batch := zoneRRSets domain defaultTTL eps
    if dryRun then
      runPhase dryRun ph defaultTTL errf rest
    else
      match errf ph domain with
      | some e => ([⟨ph, domain, batch⟩], some e)
      | none =>
        let r := runPhase dryRun ph defaultTTL errf rest
        (⟨ph, domain, batch⟩ :: r.1, r.2)

/-- Go `ApplyChanges`: the CREATE, UPDATE and DELETE phases in order, each
grouping its endpoint list by matched zone; a failing bulk call aborts the
whole call with that error, later phases not entered. Returns the trace of
issued bulk calls together with the returned error. -/
def ApplyChanges {E : Type} (dryRun : Bool) (defaultTTL : Int)
    (domainFilters : List Str) (errf : Phase → Str → Option E) (changes : Changes) :
    List BulkCall × Option E :=
  let r1 := runPhase dryRun Phase.create defaultTTL errf
    (mapEndpointsByHostname domainFilters changes.Create).1
  match r1.2 with
  | some e => (r1.1, some e)
  | none =>
    let r2 := runPhase dryRun Phase.update defaultTTL errf
      (mapEndpointsByHostname domainFilters changes.UpdateNew).1
    match r2.2 with
    | some e => (r1.1 ++ r2.1, some e)
    | none =>
      let r3 := runPhase dryRun Phase.delete defaultTTL errf
        (mapEndpointsByHostname domainFilters changes.Delete).1
      (r1.1 ++ r2.1 ++ r3.1, r3.2)

/-- C6: splitting recovers the subname: for any zone `z` and subname `s`
with no leading or trailing dot, `extractSubname` applied to the name that
`convertRRSetToEndpoint` composes from `(s, z)` returns `s`; the apex case is
included, `extractSubname z z = ""`. -/
theorem c6_split_join_roundtrip (s z : Str)
    (hs1 : hasSuffix s dotStr = false) (hs2 : ¬ dotStr <+: s) :
    extractSubname (composeDNSName s z) z = s ∧ extractSubname z z = [] := by
  refine ⟨?_, by simp [extractSubname]⟩
  have hdot : (dotStr : Str) ≠ [] := by decide
  by_cases hsnil : s = []
  · subst hsnil
    simp [composeDNSName, extractSubname, trimSuffix_append]
  · simp only [composeDNSName, if_neg hsnil]
    by_cases hz : hasSuffix z dotStr = true
    · obtain ⟨z₀, hz₀⟩ := hasSuffix_exists hz
      subst hz₀
      have hC : s ++ dotStr ++ (z₀ ++ dotStr) = s ++ dotStr ++ z₀ ++ dotStr := by
        simp [List.append_assoc]
      rw [hC, trimSuffix_append]
      simp only [extractSubname, trimSuffix_append]
      rw [if_neg (append_ne_of_longer s z₀ dotStr hsnil hdot), List.append_assoc,
        trimSuffix_append]
    · have hzf : hasSuffix z dotStr = false := by simpa using hz
      by_cases hznil : z = []
      · subst hznil
        simp only [List.append_nil]
        rw [trimSuffix_append]
        have h0 : trimSuffix ([] : Str) dotStr = [] := by decide
        simp only [extractSubname, trimSuffix_append, h0]
        rw [if_neg hsnil, List.append_nil, trimSuffix_of_not hs1]
      · have hCn : hasSuffix (s ++ dotStr ++ z) dotStr = false :=
          (hasSuffix_dot_append (s ++ dotStr) hznil).trans hzf
        rw [trimSuffix_of_not hCn]
        simp only [extractSubname, trimSuffix_append, trimSuffix_of_not hzf]
        rw [if_neg (append_ne_of_longer s z dotStr hsnil hdot), List.append_assoc,
          trimSuffix_append]

theorem c6_split_join_roundtrip_witness :
    extractSubname (composeDNSName (strOf "www") (strOf "example.com"))
      (strOf "example.com") = strOf "www" ∧
    extractSubname (strOf "example.com") (strOf "example.com") = [] :=
  c6_split_join_roundtrip (strOf "www") (strOf "example.com") (by decide) (by decide)

/-- C3: the TTL normalization shared by `convertEndpointToRRSet` and
`AdjustEndpoints` returns the configured default when the TTL is 0 or below
`minimumTTL` (wholesale replacement, not a raise to the minimum), and leaves
TTLs at or above the minimum unchanged. -/
theorem c3_normalizeTTL_policy (t dflt : Int) (ep : Endpoint) (dom : Str)
    (d : DesecClient) :
    ((t = 0 ∨ t < minimumTTL) → normalizeTTLGo t dflt = dflt) ∧
    (minimumTTL ≤ t → normalizeTTLGo t dflt = t) ∧
    (convertEndpointToRRSetCore ep dom dflt).TTL = normalizeTTLGo ep.RecordTTL dflt ∧
    (∀ ep', adjustOne d ep = some ep' →
      ep'.RecordTTL = normalizeTTLGo ep.RecordTTL d.defaultTTL) := by
  refine ⟨?_, ?_, rfl, ?_⟩
  · intro h
    rw [normalizeTTLGo, if_pos h]
  · intro h
    rw [normalizeTTLGo, if_neg]
    intro hc
    have hmin : minimumTTL = 3600 := rfl
    rcases hc with h0 | hlt <;> omega
  · intro ep' h
    simp only [adjustOne] at h
    split at h
    · exact absurd h (by simp)
    · rw [← Option.some_inj.mp h]

theorem c3_normalizeTTL_policy_witness :
    normalizeTTLGo 300 3600 = 3600 ∧ normalizeTTLGo 0 7200 = 7200 ∧
    normalizeTTLGo 7200 3600 = 7200 :=
  ⟨(c3_normalizeTTL_policy 300 3600 ⟨[], [], [], 0, [], [], []⟩ [] ⟨false, 0, []⟩).1
      (Or.inr (by decide)),
    (c3_normalizeTTL_policy 0 7200 ⟨[], [], [], 0, [], [], []⟩ [] ⟨false, 0, []⟩).1
      (Or.inl rfl),
    (c3_normalizeTTL_policy 7200 3600 ⟨[], [], [], 0, [], [], []⟩ [] ⟨false, 0, []⟩).2.1
      (by decide)⟩

/-- C7: target normalization (shared by `convertEndpointToRRSet` and
`AdjustEndpoints`) rewrites only CNAME targets, appending a trailing dot
exactly when absent; it is idempotent, and non-CNAME targets pass through. -/
theorem c7_normalizeTarget_cname (rt t : Str) (ep : Endpoint) (dom : Str)
    (dflt : Int) (d : DesecClient) :
    (rt ≠ strOf "CNAME" → normTargetGo rt t = t) ∧
    normTargetGo rt (normTargetGo rt t) = normTargetGo rt t ∧
    (hasSuffix t dotStr = true → normTargetGo rt t = t) ∧
    (rt = strOf "CNAME" → hasSuffix t dotStr = false →
      normTargetGo rt t = t ++ dotStr) ∧
    (convertEndpointToRRSetCore ep dom dflt).Records =
      ep.Targets.map (normTargetGo ep.RecordType) ∧
    (∀ ep', adjustOne d ep = some ep' →
      ep'.Targets = ep.Targets.map (normTargetGo ep.RecordType)) := by
  refine ⟨?_, ?_, ?_, ?_, rfl, ?_⟩
  · intro h
    rw [normTargetGo, if_neg]
    intro hc
    exact h hc.1
  · by_cases hc : rt = strOf "CNAME" ∧ hasSuffix t dotStr = false
    · have h1 : normTargetGo rt t = t ++ dotStr := by rw [normTargetGo, if_pos hc]
      rw [h1, normTargetGo, if_neg]
      intro h2
      rw [hasSuffix_append] at h2
      exact absurd h2.2 (by simp)
    · have h1 : normTargetGo rt t = t := by rw [normTargetGo, if_neg hc]
      rw [h1]
      exact h1
  · intro h
    rw [normTargetGo, if_neg]
    intro hc
    rw [h] at hc
    exact absurd hc.2 (by simp)
  · intro h1 h2
    rw [normTargetGo, if_pos ⟨h1, h2⟩]
  · intro ep' h
    simp only [adjustOne] at h
    split at h
    · exact absurd h (by simp)
    · rw [← Option.some_inj.mp h]

theorem c7_normalizeTarget_cname_witness :
    normTargetGo (strOf "CNAME") (strOf "alias.example.com") =
      strOf "alias.example.com" ++ dotStr ∧
    normTargetGo (strOf "CNAME") (strOf "alias.example.com.") =
      strOf "alias.example.com." ∧
    normTargetGo (strOf "A") (strOf "1.2.3.4") = strOf "1.2.3.4" :=
  ⟨(c7_normalizeTarget_cname (strOf "CNAME") (strOf "alias.example.com")
      ⟨[], [], [], 0, [], [], []⟩ [] 0 ⟨false, 0, []⟩).2.2.2.1 rfl (by decide),
    (c7_normalizeTarget_cname (strOf "CNAME") (strOf "alias.example.com.")
      ⟨[], [], [], 0, [], [], []⟩ [] 0 ⟨false, 0, []⟩).2.2.1 (by decide),
    (c7_normalizeTarget_cname (strOf "A") (strOf "1.2.3.4")
      ⟨[], [], [], 0, [], [], []⟩ [] 0 ⟨false, 0, []⟩).1 (by decide)⟩

theorem hasSuffix_doubledot {x : Str} (hx : hasSuffix x dotStr = false) :
    hasSuffix (x ++ dotStr) (dotStr ++ dotStr) = false := by
  cases h : hasSuffix (x ++ dotStr) (dotStr ++ dotStr) with
  | false => rfl
  | true =>
    obtain ⟨t, ht⟩ := hasSuffix_exists h
    have h2 : x ++ dotStr = (t ++ dotStr) ++ dotStr := by rw [ht, List.append_assoc]
    have h3 : x = t ++ dotStr := List.append_cancel_right h2
    rw [h3, hasSuffix_append] at hx
    exact hx

/-- C8: for a well-formed zone (nonempty, no trailing dot) and RRSet subname
without trailing dot, `convertRRSetToEndpoint` yields the name composed as
zone alone at the apex and `subname ++ "." ++ zone` otherwise, carrying
exactly one trailing dot, while targets, TTL and record type are copied
verbatim from the RRSet. -/
theorem c8_convertRRSetToEndpoint_fields (r : RRSet) (z : Str) (hz1 : z ≠ [])
    (hz2 : hasSuffix z dotStr = false) (_hs : hasSuffix r.SubName dotStr = false) :
    hasSuffix (convertRRSetToEndpointCore r z).DNSName dotStr = true ∧
    (convertRRSetToEndpointCore r z).DNSName =
      (if r.SubName = [] then z else r.SubName ++ dotStr ++ z) ++ dotStr ∧
    hasSuffix (convertRRSetToEndpointCore r z).DNSName (dotStr ++ dotStr) = false ∧
    (convertRRSetToEndpointCore r z).Targets = r.Records ∧
    (convertRRSetToEndpointCore r z).RecordTTL = r.TTL ∧
    (convertRRSetToEndpointCore r z).RecordType = r.Type_ := by
  have hcomp : hasSuffix (if r.SubName = [] then z else r.SubName ++ dotStr ++ z)
      dotStr = false := by
    by_cases hsub : r.SubName = []
    · rw [if_pos hsub]
      exact hz2
    · rw [if_neg hsub]
      exact (hasSuffix_dot_append (r.SubName ++ dotStr) hz1).trans hz2
  have hname : (convertRRSetToEndpointCore r z).DNSName =
      (if r.SubName = [] then z else r.SubName ++ dotStr ++ z) ++ dotStr := by
    simp only [convertRRSetToEndpointCore, composeDNSName]
    rw [trimSuffix_of_not hcomp]
  refine ⟨?_, hname, ?_, rfl, rfl, rfl⟩
  · rw [hname]
    exact hasSuffix_append _ _
  · rw [hname]
    exact hasSuffix_doubledot hcomp

theorem c8_convertRRSetToEndpoint_fields_witness :
    (convertRRSetToEndpointCore ⟨strOf "www", strOf "A", [strOf "1.2.3.4"], 3600⟩
      (strOf "example.com")).DNSName = strOf "www.example.com." ∧
    (convertRRSetToEndpointCore ⟨strOf "", strOf "A", [strOf "1.2.3.4"], 3600⟩
      (strOf "example.com")).DNSName = strOf "example.com." :=
  ⟨((c8_convertRRSetToEndpoint_fields ⟨strOf "www", strOf "A", [strOf "1.2.3.4"], 3600⟩
      (strOf "example.com") (by decide) (by decide) (by decide)).2.1).trans (by decide),
    ((c8_convertRRSetToEndpoint_fields ⟨strOf "", strOf "A", [strOf "1.2.3.4"], 3600⟩
      (strOf "example.com") (by decide) (by decide) (by decide)).2.1).trans (by decide)⟩

/-- C9: the public operations are total on absent or empty input: a nil
endpoint list adjusts to the empty list, `AdjustEndpoints` never returns a
non-nil error, nil endpoints and RRSets convert to nil, and an endpoint with
zero targets converts to an RRSet with zero records. -/
theorem c9_totality_on_empty (E : Type) (d : DesecClient) (dom z : Str)
    (dflt : Int) (ep : Endpoint) (h : ep.Targets = []) :
    AdjustEndpoints E d none = ([], none) ∧
    (∀ endpoints, (AdjustEndpoints E d endpoints).2 = none) ∧
    convertEndpointToRRSet none dom dflt = none ∧
    convertRRSetToEndpoint none z = none ∧
    (convertEndpointToRRSetCore ep dom dflt).Records = [] := by
  refine ⟨rfl, ?_, rfl, rfl, ?_⟩
  · intro endpoints
    cases endpoints <;> rfl
  · simp [convertEndpointToRRSetCore, h]

theorem c9_totality_on_empty_witness :
    AdjustEndpoints Nat ⟨false, 3600, []⟩ none = ([], none) ∧
    (convertEndpointToRRSetCore ⟨strOf "www.example.com", strOf "A", [], 0, [], [], []⟩
      (strOf "example.com") 3600).Records = [] :=
  ⟨(c9_totality_on_empty Nat ⟨false, 3600, []⟩ [] [] 3600
      ⟨strOf "www.example.com", strOf "A", [], 0, [], [], []⟩ rfl).1,
    (c9_totality_on_empty Nat ⟨false, 3600, []⟩ (strOf "example.com") [] 3600
      ⟨strOf "www.example.com", strOf "A", [], 0, [], [], []⟩ rfl).2.2.2.2⟩

theorem runPhase_dryRun {E : Type} (ph : Phase) (defaultTTL : Int)
    (errf : Phase → Str → Option E) (groups : List (Str × List Endpoint)) :
    runPhase true ph defaultTTL errf groups = ([], none) := by
  induction groups with
  | nil => rfl
  | cons g rest ih =>
    cases g with
    | mk dom eps => simp [runPhase, ih]

/-- C5: in dry-run mode `ApplyChanges` issues no bulk call for any zone or
phase and returns success, and `AdjustEndpoints` returns a nil error in every
mode (it performs no provider call at all: its result depends only on its
arguments). -/
theorem c5_dryRun_no_provider_calls :
    (∀ (E : Type) (defaultTTL : Int) (domainFilters : List Str)
        (errf : Phase → Str → Option E) (changes : Changes),
      ApplyChanges true defaultTTL domainFilters errf changes = ([], none)) ∧
    (∀ (E : Type) (d : DesecClient) (endpoints : Option (List (Option Endpoint))),
      (AdjustEndpoints E d endpoints).2 = none) := by
  constructor
  · intro E defaultTTL domainFilters errf changes
    simp [ApplyChanges, runPhase_dryRun]
  · intro E d endpoints
    cases endpoints <;> rfl

theorem runPhase_abort {E : Type} (ph : Phase) (defaultTTL : Int)
    (errf : Phase → Str → Option E) (e : E) :
    ∀ (pre : List (Str × List Endpoint)) (dz : Str) (deps : List Endpoint)
      (post : List (Str × List Endpoint)),
      (∀ p ∈ pre, errf ph p.1 = none) → errf ph dz = some e →
      runPhase false ph defaultTTL errf (pre ++ (dz, deps) :: post) =
        (pre.map (fun p => ⟨ph, p.1, zoneRRSets p.1 defaultTTL p.2⟩) ++
          [⟨ph, dz, zoneRRSets dz defaultTTL deps⟩], some e) := by
  intro pre
  induction pre with
  | nil =>
    intro dz deps post _ herr
    simp [runPhase, herr]
  | cons p rest ih =>
    intro dz deps post hpre herr
    cases p with
    | mk pd peps =>
      have hp : errf ph pd = none := hpre (pd, peps) (List.mem_cons_self _ _)
      have hrest := ih dz deps post (fun q hq => hpre q (List.mem_cons_of_mem _ hq)) herr
      simp [runPhase, hp, hrest]

theorem runPhase_ok {E : Type} (ph : Phase) (defaultTTL : Int)
    (errf : Phase → Str → Option E) :
    ∀ (groups : List (Str × List Endpoint)),
      (∀ p ∈ groups, errf ph p.1 = none) →
      runPhase false ph defaultTTL errf groups =
        (groups.map (fun p => ⟨ph, p.1, zoneRRSets p.1 defaultTTL p.2⟩), none) := by
  intro groups
  induction groups with
  | nil => intro _; rfl
  | cons p rest ih =>
    intro hok
    cases p with
    | mk pd peps =>
      have hp : errf ph pd = none := hok (pd, peps) (List.mem_cons_self _ _)
      have hrest := ih (fun q hq => hok q (List.mem_cons_of_mem _ hq))
      simp [runPhase, hp, hrest]

/-- C2: when `ApplyChanges` is not in dry-run mode and the bulk operation of
some zone fails — in the CREATE, UPDATE or DELETE phase, all bulk calls
issued before it having succeeded — the call returns that error unchanged;
the trace of issued bulk calls consists exactly of the successful calls of
the completed earlier phases, the earlier successful calls of the failing
phase, and the failing call itself: no later zone of the failing phase, no
call of any subsequent phase, and no compensating call. -/
theorem c2_applyChanges_abort_on_failure {E : Type} (defaultTTL : Int)
    (domainFilters : List Str) (errf : Phase → Str → Option E) (changes : Changes)
    (pre post : List (Str × List Endpoint)) (dz : Str) (deps : List Endpoint) (e : E) :
    ((mapEndpointsByHostname domainFilters changes.Create).1 =
        pre ++ (dz, deps) :: post →
      (∀ p ∈ pre, errf Phase.create p.1 = none) →
      errf Phase.create dz = some e →
      ApplyChanges false defaultTTL domainFilters errf changes =
        (pre.map (fun p => ⟨Phase.create, p.1, zoneRRSets p.1 defaultTTL p.2⟩) ++
          [⟨Phase.create, dz, zoneRRSets dz defaultTTL deps⟩], some e)) ∧
    ((∀ p ∈ (mapEndpointsByHostname domainFilters changes.Create).1,
        errf Phase.create p.1 = none) →
      (mapEndpointsByHostname domainFilters changes.UpdateNew).1 =
        pre ++ (dz, deps) :: post →
      (∀ p ∈ pre, errf Phase.update p.1 = none) →
      errf Phase.update dz = some e →
      ApplyChanges false defaultTTL domainFilters errf changes =
        ((mapEndpointsByHostname domainFilters changes.Create).1.map
            (fun p => ⟨Phase.create, p.1, zoneRRSets p.1 defaultTTL p.2⟩) ++
          (pre.map (fun p => ⟨Phase.update, p.1, zoneRRSets p.1 defaultTTL p.2⟩) ++
            [⟨Phase.update, dz, zoneRRSets dz defaultTTL deps⟩]), some e)) ∧
    ((∀ p ∈ (mapEndpointsByHostname domainFilters changes.Create).1,
        errf Phase.create p.1 = none) →
      (∀ p ∈ (mapEndpointsByHostname domainFilters changes.UpdateNew).1,
        errf Phase.update p.1 = none) →
      (mapEndpointsByHostname domainFilters changes.Delete).1 =
        pre ++ (dz, deps) :: post →
      (∀ p ∈ pre, errf Phase.delete p.1 = none) →
      errf Phase.delete dz = some e →
      ApplyChanges false defaultTTL domainFilters errf changes =
        ((mapEndpointsByHostname domainFilters changes.Create).1.map
            (fun p => ⟨Phase.create, p.1, zoneRRSets p.1 defaultTTL p.2⟩) ++
          ((mapEndpointsByHostname domainFilters changes.UpdateNew).1.map
              (fun p => ⟨Phase.update, p.1, zoneRRSets p.1 defaultTTL p.2⟩) ++
            (pre.map (fun p => ⟨Phase.delete, p.1, zoneRRSets p.1 defaultTTL p.2⟩) ++
              [⟨Phase.delete, dz, zoneRRSets dz defaultTTL deps⟩])), some e)) := by
  refine ⟨?_, ?_, ?_⟩
  · intro hgroups hpre herr
    have h1 := runPhase_abort Phase.create defaultTTL errf e pre dz deps post hpre herr
    simp [ApplyChanges, hgroups, h1]
  · intro hokc hgroups hpre herr
    have h1 := runPhase_ok Phase.create defaultTTL errf _ hokc
    have h2 := runPhase_abort Phase.update defaultTTL errf e pre dz deps post hpre herr
    simp [ApplyChanges, hgroups, h1, h2]
  · intro hokc hoku hgroups hpre herr
    have h1 := runPhase_ok Phase.create defaultTTL errf _ hokc
    have h2 := runPhase_ok Phase.update defaultTTL errf _ hoku
    have h3 := runPhase_abort Phase.delete defaultTTL errf e pre dz deps post hpre herr
    simp [ApplyChanges, hgroups, h1, h2, h3]

/-- Concrete endpoint in zone `a.com`, used by witnesses. -/
def epA : Endpoint :=
  ⟨strOf "x.a.com", strOf "A", [], 7200, [], [], [strOf "1.1.1.1"]⟩

/-- Concrete endpoint in zone `b.com`, used by witnesses. -/
def epB : Endpoint :=
  ⟨strOf "y.b.com", strOf "A", [], 7200, [], [], [strOf "2.2.2.2"]⟩

/-- Error oracle failing the CREATE bulk call of zone `b.com` only. -/
def errfW : Phase → Str → Option Nat := fun ph dom =>
  if ph = Phase.create ∧ dom = strOf "b.com" then some 7 else none

/-- Error oracle failing the UPDATE bulk call of zone `a.com` only. -/
def errfWU : Phase → Str → Option Nat := fun ph dom =>
  if ph = Phase.update ∧ dom = strOf "a.com" then some 8 else none

/-- Error oracle failing the DELETE bulk call of zone `a.com` only. -/
def errfWD : Phase → Str → Option Nat := fun ph dom =>
  if ph = Phase.delete ∧ dom = strOf "a.com" then some 9 else none

/-- Change set whose CREATE phase spans two zones. -/
def changesW : Changes := ⟨[some epA, some epB], [], []⟩

/-- Change set with CREATE, UPDATE (two zones) and DELETE work. -/
def changesWU : Changes := ⟨[some epA], [some epB, some epA], [some epA]⟩

/-- Change set with CREATE, UPDATE and DELETE (two zones) work. -/
def changesWD : Changes := ⟨[some epA], [some epB], [some epA, some epB]⟩

theorem c2_applyChanges_abort_on_failure_witness :
    (ApplyChanges false 3600 [strOf "a.com", strOf "b.com"] errfW changesW =
      ([(strOf "a.com", [epA])].map
          (fun p => ⟨Phase.create, p.1, zoneRRSets p.1 3600 p.2⟩) ++
        [⟨Phase.create, strOf "b.com", zoneRRSets (strOf "b.com") 3600 [epB]⟩],
        some 7)) ∧
    (ApplyChanges false 3600 [strOf "a.com", strOf "b.com"] errfWU changesWU =
      ((mapEndpointsByHostname [strOf "a.com", strOf "b.com"] changesWU.Create).1.map
          (fun p => ⟨Phase.create, p.1, zoneRRSets p.1 3600 p.2⟩) ++
        ([(strOf "b.com", [epB])].map
            (fun p => ⟨Phase.update, p.1, zoneRRSets p.1 3600 p.2⟩) ++
          [⟨Phase.update, strOf "a.com", zoneRRSets (strOf "a.com") 3600 [epA]⟩]),
        some 8)) ∧
    (ApplyChanges false 3600 [strOf "a.com", strOf "b.com"] errfWD changesWD =
      ((mapEndpointsByHostname [strOf "a.com", strOf "b.com"] changesWD.Create).1.map
          (fun p => ⟨Phase.create, p.1, zoneRRSets p.1 3600 p.2⟩) ++
        ((mapEndpointsByHostname [strOf "a.com", strOf "b.com"] changesWD.UpdateNew).1.map
            (fun p => ⟨Phase.update, p.1, zoneRRSets p.1 3600 p.2⟩) ++
          (([] : List (Str × List Endpoint)).map
              (fun p => ⟨Phase.delete, p.1, zoneRRSets p.1 3600 p.2⟩) ++
            [⟨Phase.delete, strOf "a.com", zoneRRSets (strOf "a.com") 3600 [epA]⟩])),
        some 9)) :=
  ⟨(c2_applyChanges_abort_on_failure 3600 [strOf "a.com", strOf "b.com"] errfW
      changesW [(strOf "a.com", [epA])] [] (strOf "b.com") [epB] 7).1
      (by decide) (by decide) (by decide),
    (c2_applyChanges_abort_on_failure 3600 [strOf "a.com", strOf "b.com"] errfWU
      changesWU [(strOf "b.com", [epB])] [] (strOf "a.com") [epA] 8).2.1
      (by decide) (by decide) (by decide) (by decide),
    (c2_applyChanges_abort_on_failure 3600 [strOf "a.com", strOf "b.com"] errfWD
      changesWD [] [(strOf "b.com", [epB])] (strOf "a.com") [epA] 9).2.2
      (by decide) (by decide) (by decide) (by decide) (by decide)⟩

theorem convert_ttl_ge (dflt : Int) (hd : minimumTTL ≤ dflt) (ep : Endpoint)
    (dom : Str) : minimumTTL ≤ (convertEndpointToRRSetCore ep dom dflt).TTL := by
  simp only [convertEndpointToRRSetCore, normalizeTTLGo]
  split
  · exact hd
  · rename_i h
    push_neg at h
    exact h.2

theorem mem_zoneRRSets_ttl {dom : Str} {dflt : Int} {eps : List Endpoint}
    {rr : RRSet} (hd : minimumTTL ≤ dflt) (hr : rr ∈ zoneRRSets dom dflt eps) :
    minimumTTL ≤ rr.TTL := by
  simp only [zoneRRSets] at hr
  obtain ⟨ep, _, hrfl⟩ := List.mem_map.mp hr
  rw [← hrfl]
  exact convert_ttl_ge dflt hd ep dom

theorem runPhase_ttl {E : Type} (dryRun : Bool) (ph : Phase) (dflt : Int)
    (hd : minimumTTL ≤ dflt) (errf : Phase → Str → Option E) :
    ∀ (groups : List (Str × List Endpoint)) (call : BulkCall) (rr : RRSet),
      call ∈ (runPhase dryRun ph dflt errf groups).1 → rr ∈ call.rrsets →
      minimumTTL ≤ rr.TTL := by
  intro groups
  induction groups with
  | nil =>
    intro call rr hc _
    simp [runPhase] at hc
  | cons g rest ih =>
    intro call rr hc hr
    cases g with
    | mk dom eps =>
      simp only [runPhase] at hc
      split at hc
      · exact ih call rr hc hr
      · cases herr : errf ph dom with
        | some e =>
          rw [herr] at hc
          simp at hc
          subst hc
          exact mem_zoneRRSets_ttl hd hr
        | none =>
          rw [herr] at hc
          simp at hc
          rcases hc with hc0 | hcm
          · subst hc0
            exact mem_zoneRRSets_ttl hd hr
          · exact ih call rr hcm hr

theorem applyChanges_ttl {E : Type} (dryRun : Bool) (dflt : Int)
    (hd : minimumTTL ≤ dflt) (domainFilters : List Str)
    (errf : Phase → Str → Option E) (changes : Changes) (call : BulkCall)
    (rr : RRSet) (hc : call ∈ (ApplyChanges dryRun dflt domainFilters errf changes).1)
    (hr : rr ∈ call.rrsets) : minimumTTL ≤ rr.TTL := by
  simp only [ApplyChanges] at hc
  split at hc
  · exact runPhase_ttl dryRun Phase.create dflt hd errf _ call rr hc hr
  · split at hc
    · rcases List.mem_append.mp hc with h | h
      · exact runPhase_ttl dryRun Phase.create dflt hd errf _ call rr h hr
      · exact runPhase_ttl dryRun Phase.update dflt hd errf _ call rr h hr
    · rcases List.mem_append.mp hc with h | h
      · rcases List.mem_append.mp h with h2 | h2
        · exact runPhase_ttl dryRun Phase.create dflt hd errf _ call rr h2 hr
        · exact runPhase_ttl dryRun Phase.update dflt hd errf _ call rr h2 hr
      · exact runPhase_ttl dryRun Phase.delete dflt hd errf _ call rr h hr

/-- C4: `CreateDesecClient` clamps a configured default TTL below 3600 up to
3600, so for every client it builds, every RRSet emitted by
`convertEndpointToRRSet` has TTL at least `minimumTTL`; in particular every
RRSet in every bulk-create, bulk-update or bulk-delete call issued by
`ApplyChanges` satisfies the invariant. -/
theorem c4_rrset_ttl_invariant {E : Type} (config : Config)
    (errf : Phase → Str → Option E) (changes : Changes) (ep : Endpoint)
    (dom : Str) (call : BulkCall) (rr : RRSet)
    (hc : call ∈ (ApplyChanges (CreateDesecClient config).dryRun
      (CreateDesecClient config).defaultTTL (CreateDesecClient config).domainFilters
      errf changes).1)
    (hr : rr ∈ call.rrsets) :
    minimumTTL ≤ (CreateDesecClient config).defaultTTL ∧
    minimumTTL ≤
      (convertEndpointToRRSetCore ep dom (CreateDesecClient config).defaultTTL).TTL ∧
    minimumTTL ≤ rr.TTL := by
  have hd : minimumTTL ≤ (CreateDesecClient config).defaultTTL := by
    simp only [CreateDesecClient]
    split
    · exact le_refl _
    · rename_i h
      exact le_of_not_lt h
  exact ⟨hd, convert_ttl_ge _ hd ep dom,
    applyChanges_ttl _ _ hd _ errf changes call rr hc hr⟩

/-- Configuration with a too-small default TTL, used by the C4 witness. -/
def configW : Config :=
  ⟨strOf "token", false, [strOf "a.com", strOf "b.com"], 300⟩

theorem c4_rrset_ttl_invariant_witness :
    minimumTTL ≤ (CreateDesecClient configW).defaultTTL ∧
    minimumTTL ≤ (convertEndpointToRRSetCore epA (strOf "a.com")
      (CreateDesecClient configW).defaultTTL).TTL ∧
    minimumTTL ≤ (⟨strOf "x", strOf "A", [strOf "1.1.1.1"], 7200⟩ : RRSet).TTL :=
  c4_rrset_ttl_invariant configW (fun _ _ => (none : Option Nat))
    ⟨[some epA], [], []⟩ epA (strOf "a.com")
    ⟨Phase.create, strOf "a.com", zoneRRSets (strOf "a.com")
      (CreateDesecClient configW).defaultTTL [epA]⟩
    ⟨strOf "x", strOf "A", [strOf "1.1.1.1"], 7200⟩
    (by decide) (by decide)

theorem lookupGroup_insertGroup (z k : Str) (ep : Endpoint) :
    ∀ (m : List (Str × List Endpoint)),
      lookupGroup z (insertGroup m k ep) =
        if k = z then lookupGroup z m ++ [ep] else lookupGroup z m := by
  intro m
  induction m with
  | nil =>
    by_cases hkz : k = z <;> simp [insertGroup, lookupGroup, hkz]
  | cons p rest ih =>
    cases p with
    | mk k' eps =>
      by_cases hk : k' = k
      · subst hk
        by_cases hz : k' = z <;> simp [insertGroup, lookupGroup, hz]
      · by_cases hz : k' = z
        · have hkz : ¬ k = z := fun h => hk (hz.trans h.symm)
          have hzk : ¬ z = k := fun h => hk (hz.trans h)
          simp [insertGroup, lookupGroup, hk, hz, hkz, hzk]
        · simp [insertGroup, lookupGroup, hk, hz, ih]

/-- Selects, from one possibly-nil endpoint of the input list, the endpoint
iff `mapEndpointsByHostname` places it in the group of zone `z`. -/
def groupPick (domainFilters : List Str) (z : Str) (oep : Option Endpoint) :
    Option Endpoint :=
  oep.bind (fun ep =>
    if ep.DNSName ≠ [] ∧
        findMatchingDomain (trimSuffix ep.DNSName dotStr) domainFilters = z
    then some ep else none)

/-- Selects, from one possibly-nil endpoint of the input list, the name iff
`mapEndpointsByHostname` logs the unmatched-zone warning for it. -/
def warnPick (domainFilters : List Str) (oep : Option Endpoint) : Option Str :=
  oep.bind (fun ep =>
    if ep.DNSName ≠ [] ∧
        findMatchingDomain (trimSuffix ep.DNSName dotStr) domainFilters = []
    then some ep.DNSName else none)

theorem mapFold_spec (domainFilters : List Str) (z : Str) (hz : z ≠ []) :
    ∀ (endpoints : List (Option Endpoint)) (acc : List (Str × List Endpoint) × List Str),
      lookupGroup z (endpoints.foldl (mapStep domainFilters) acc).1 =
        lookupGroup z acc.1 ++ endpoints.filterMap (groupPick domainFilters z) ∧
      (endpoints.foldl (mapStep domainFilters) acc).2 =
        acc.2 ++ endpoints.filterMap (warnPick domainFilters) := by
  intro endpoints
  induction endpoints with
  | nil => intro acc; simp
  | cons oep rest ih =>
    intro acc
    cases oep with
    | none =>
      have h1 := ih acc
      simpa [mapStep, groupPick, warnPick] using h1
    | some ep =>
      by_cases hname : ep.DNSName = []
      · have hstep : mapStep domainFilters acc (some ep) = acc := by
          simp [mapStep, hname]
        have hg : groupPick domainFilters z (some ep) = none := by
          simp [groupPick, hname]
        have hw : warnPick domainFilters (some ep) = none := by
          simp [warnPick, hname]
        simp only [List.foldl_cons, hstep, List.filterMap_cons, hg, hw]
        exact ih acc
      · by_cases hmz : findMatchingDomain (trimSuffix ep.DNSName dotStr) domainFilters = []
        · have hstep : mapStep domainFilters acc (some ep) =
              (acc.1, acc.2 ++ [ep.DNSName]) := by
            simp [mapStep, hname, hmz]
          have hg : groupPick domainFilters z (some ep) = none := by
            simp [groupPick, hname, hmz, Ne.symm hz]
          have hw : warnPick domainFilters (some ep) = some ep.DNSName := by
            simp [warnPick, hname, hmz]
          obtain ⟨ih1, ih2⟩ := ih (acc.1, acc.2 ++ [ep.DNSName])
          constructor
          · simp only [List.foldl_cons, hstep, List.filterMap_cons, hg]
            exact ih1
          · simp only [List.foldl_cons, hstep, List.filterMap_cons, hw]
            rw [ih2]
            simp
        · have hstep : mapStep domainFilters acc (some ep) =
              (insertGroup acc.1
                (findMatchingDomain (trimSuffix ep.DNSName dotStr) domainFilters) ep,
                acc.2) := by
            simp [mapStep, hname, hmz]
          obtain ⟨ih1, ih2⟩ :=
            ih (insertGroup acc.1
              (findMatchingDomain (trimSuffix ep.DNSName dotStr) domainFilters) ep, acc.2)
          have hw : warnPick domainFilters (some ep) = none := by
            simp [warnPick, hname, hmz]
          by_cases hmzz :
              findMatchingDomain (trimSuffix ep.DNSName dotStr) domainFilters = z
          · have hg : groupPick domainFilters z (some ep) = some ep := by
              simp [groupPick, hname, hmzz]
            constructor
            · simp only [List.foldl_cons, hstep, List.filterMap_cons, hg]
              rw [ih1, lookupGroup_insertGroup z _ ep acc.1, if_pos hmzz]
              simp
            · simp only [List.foldl_cons, hstep, List.filterMap_cons, hw]
              exact ih2
          · have hg : groupPick domainFilters z (some ep) = none := by
              simp [groupPick, hname, hmzz]
            constructor
            · simp only [List.foldl_cons, hstep, List.filterMap_cons, hg]
              rw [ih1, lookupGroup_insertGroup z _ ep acc.1, if_neg hmzz]
            · simp only [List.foldl_cons, hstep, List.filterMap_cons, hw]
              exact ih2

/-- C10: in the zone grouping used by every `ApplyChanges` phase, a nil
endpoint or one with an empty name lands in no group and produces no
warning; a non-empty unmatched name produces a warning and no group entry;
and the group of each zone `z` lists exactly the endpoints matched to `z`,
in input order. -/
theorem c10_mapEndpoints_grouping (domainFilters : List Str)
    (endpoints : List (Option Endpoint)) (z : Str) (hz : z ≠ []) :
    lookupGroup z (mapEndpointsByHostname domainFilters endpoints).1 =
      endpoints.filterMap (groupPick domainFilters z) ∧
    (mapEndpointsByHostname domainFilters endpoints).2 =
      endpoints.filterMap (warnPick domainFilters) := by
  have h := mapFold_spec domainFilters z hz endpoints ([], [])
  simpa [mapEndpointsByHostname, lookupGroup] using h

/-- Endpoint with an empty name, used by the C10 witness. -/
def epEmpty : Endpoint := ⟨[], strOf "A", [], 7200, [], [], [strOf "3.3.3.3"]⟩

/-- Endpoint matching no filter, used by the C10 witness. -/
def epOther : Endpoint :=
  ⟨strOf "q.other.org", strOf "A", [], 7200, [], [], [strOf "4.4.4.4"]⟩

/-- Second endpoint in zone `a.com`, used by the C10 witness. -/
def epA2 : Endpoint :=
  ⟨strOf "w.a.com", strOf "A", [], 7200, [], [], [strOf "5.5.5.5"]⟩

theorem c10_mapEndpoints_grouping_witness :
    lookupGroup (strOf "a.com")
      (mapEndpointsByHostname [strOf "a.com", strOf "b.com"]
        [none, some epEmpty, some epOther, some epA, some epB, some epA2]).1 =
      [epA, epA2] ∧
    (mapEndpointsByHostname [strOf "a.com", strOf "b.com"]
      [none, some epEmpty, some epOther, some epA, some epB, some epA2]).2 =
      [strOf "q.other.org"] := by
  have h := c10_mapEndpoints_grouping [strOf "a.com", strOf "b.com"]
    [none, some epEmpty, some epOther, some epA, some epB, some epA2]
    (strOf "a.com") (by decide)
  exact ⟨h.1.trans (by decide), h.2.trans (by decide)⟩

theorem c1_findMatchingDomain_longest_match_witness :
    (findMatchingDomain (strOf "foo.sub.example.com")
        [strOf "sub.example.com", strOf "example.com"] = [] ∧
      ∀ f ∈ [strOf "sub.example.com", strOf "example.com"],
        filterMatches (trimSuffix (strOf "foo.sub.example.com") dotStr)
          (trimSuffix f dotStr) = false) ∨
    (∃ f ∈ [strOf "sub.example.com", strOf "example.com"],
      trimSuffix f dotStr = findMatchingDomain (strOf "foo.sub.example.com")
        [strOf "sub.example.com", strOf "example.com"] ∧
      filterMatches (trimSuffix (strOf "foo.sub.example.com") dotStr)
        (findMatchingDomain (strOf "foo.sub.example.com")
          [strOf "sub.example.com", strOf "example.com"]) = true ∧
      ∀ g ∈ [strOf "sub.example.com", strOf "example.com"],
        filterMatches (trimSuffix (strOf "foo.sub.example.com") dotStr)
          (trimSuffix g dotStr) = true →
        (trimSuffix g dotStr).length ≤
          (findMatchingDomain (strOf "foo.sub.example.com")
            [strOf "sub.example.com", strOf "example.com"]).length) :=
  c1_findMatchingDomain_longest_match (strOf "foo.sub.example.com")
    [strOf "sub.example.com", strOf "example.com"]
